import Mathlib

/-
Formal model of the Elevartor block-teleport system (src/scripts/main.js).

The script scans, for each player standing on an allowed block type, the
vertical column below (while sneaking) or above (while jumping) for the
nearest block of the same type, and teleports the player on top of it,
guarded by per-player cooldown flags that re-arm when the triggering
input is released.

Machine reals (JavaScript numbers) are modelled by ℚ: every quantity the
script manipulates (integer block coordinates, +0.5 block-centering) is
exactly representable.  Block lookups are a function from integer
coordinates to an optional block type id, mirroring
dimension.getBlock(...).typeId with absent blocks as none.
-/

namespace Elevartor

/-- Integer block-aligned position (the script floors player coordinates
before any block lookup). -/
structure IntPos where
  x : Int
  y : Int
  z : Int
deriving DecidableEq

/-- Continuous position (teleport targets use +0.5 / +1 offsets). -/
structure RatPos where
  x : ℚ
  y : ℚ
  z : ℚ
deriving DecidableEq

/-- Per-player cooldown record stored in the playerStates map. -/
structure PlayerState where
  hasTeleportedDown : Bool
  hasTeleportedUp : Bool
deriving DecidableEq

/-- The static `config` object of main.js. -/
structure Config where
  maximum : Nat
  miniLimit : Int
  maxLimitOW : Int
  maxLimitETC : Int
  dimensions : List String

/-- The literal configuration values of main.js. -/
def defaultConfig : Config :=
  ⟨100, -65, 340, 255, ["minecraft:nether", "minecraft:overworld", "minecraft:the_end"]⟩

/-- The `allowedBlocks` list of main.js. -/
def allowedBlocks : List String :=
  ["minecraft:diamond_block", "minecraft:netherite_block", "minecraft:emerald_block",
   "minecraft:lapis_block", "minecraft:gold_block", "minecraft:iron_block",
   "minecraft:copper_block"]

/-- A block lookup: dimension.getBlock at integer coordinates, none when the
host returns no block. -/
def BlockMap : Type := Int → Int → Int → Option String

/-- getPlayerState: return the stored record, or the fresh
`{hasTeleportedDown: false, hasTeleportedUp: false}` record that get-or-create
inserts for an unseen player id. -/
def getPlayerState (st? : Option PlayerState) : PlayerState :=
  st?.getD ⟨false, false⟩

/-- resetPlayerState: releasing sneak clears the down flag, releasing jump
clears the up flag. -/
def resetPlayerState (st : PlayerState) (isSneaking isJumping : Bool) : PlayerState :=
  ⟨if isSneaking then st.hasTeleportedDown else false,
   if isJumping then st.hasTeleportedUp else false⟩

/-- `distance < minDistance` where minDistance starts at Infinity. -/
def distLtInf (d : Nat) : Option Nat → Bool
  | none => true
  | some m => decide (d < m)

/-- The downward scan loop of handleDownTeleport.  `k` is the current
absolute offset (the JS loop variable is `y = -k`, starting at `y = -2`),
`fuel` the number of loop iterations left (the JS loop runs while
`y ≥ -maximum`), `minDist`/`nearest` the running minimum tracking. -/
def scanDownFrom (c : Config) (gb : BlockMap) (pos : IntPos) (target : String) :
    Nat → Nat → Option Nat → Option IntPos → Option IntPos
  | 0, _, _, nearest => nearest
  | fuel + 1, k, minDist, nearest =>
    let checkY : Int := pos.y - (k : Int)
    if checkY ≤ c.miniLimit then nearest
    else
      match gb pos.x checkY pos.z with
      | none => scanDownFrom c gb pos target fuel (k + 1) minDist nearest
      | some t =>
        if t = target then
          if distLtInf k minDist then
            scanDownFrom c gb pos target fuel (k + 1) (some k) (some ⟨pos.x, checkY, pos.z⟩)
          else
            scanDownFrom c gb pos target fuel (k + 1) minDist nearest
        else
          scanDownFrom c gb pos target fuel (k + 1) minDist nearest

/-- The downward scan of handleDownTeleport: offsets -2, -3, …, -maximum,
so maximum - 1 iterations starting at absolute offset 2. -/
def scanDown (c : Config) (gb : BlockMap) (pos : IntPos) (target : String) : Option IntPos :=
  scanDownFrom c gb pos target (c.maximum - 1) 2 none none

/-- The dimension-dependent break condition of the upward scan loop:
`(dim === overworld && checkY >= maxLimitOW) || ((dim === nether || dim === the_end) && checkY >= maxLimitETC)`. -/
def upBreak (c : Config) (dimensionName : String) (checkY : Int) : Bool :=
  (dimensionName == "minecraft:overworld" && decide (c.maxLimitOW ≤ checkY)) ||
  ((dimensionName == "minecraft:nether" || dimensionName == "minecraft:the_end") &&
    decide (c.maxLimitETC ≤ checkY))

/-- The upward scan loop of handleUpTeleport.  `k` is the JS loop variable
`y`, starting at 1; `fuel` the iterations left (the loop runs while
`y ≤ maximum`). -/
def scanUpFrom (c : Config) (gb : BlockMap) (pos : IntPos) (target : String)
    (dimensionName : String) :
    Nat → Nat → Option Nat → Option IntPos → Option IntPos
  | 0, _, _, nearest => nearest
  | fuel + 1, k, minDist, nearest =>
    let checkY : Int := pos.y + (k : Int)
    if upBreak c dimensionName checkY then nearest
    else
      match gb pos.x checkY pos.z with
      | none => scanUpFrom c gb pos target dimensionName fuel (k + 1) minDist nearest
      | some t =>
        if t = target then
          if distLtInf k minDist then
            scanUpFrom c gb pos target dimensionName fuel (k + 1) (some k)
              (some ⟨pos.x, checkY, pos.z⟩)
          else
            scanUpFrom c gb pos target dimensionName fuel (k + 1) minDist nearest
        else
          scanUpFrom c gb pos target dimensionName fuel (k + 1) minDist nearest

/-- The upward scan of handleUpTeleport: offsets 1, 2, …, maximum. -/
def scanUp (c : Config) (gb : BlockMap) (pos : IntPos) (target : String)
    (dimensionName : String) : Option IntPos :=
  scanUpFrom c gb pos target dimensionName c.maximum 1 none none

/-- handleDownTeleport: gate on `!isSneaking || isJumping || hasTeleportedDown`,
scan downward, and on a found block teleport to its center one block up and
set the down cooldown flag.  The returned pair is (updated player state,
teleport destination passed to player.teleport, if any). -/
def handleDownTeleport (c : Config) (isSneaking isJumping : Bool) (gb : BlockMap)
    (pos : IntPos) (allowedBlock : String) (playerState : PlayerState) :
    PlayerState × Option RatPos :=
  if !isSneaking || isJumping || playerState.hasTeleportedDown then (playerState, none)
  else
    match scanDown c gb pos allowedBlock with
    | none => (playerState, none)
    | some nearestBlock =>
      (⟨true, playerState.hasTeleportedUp⟩,
       some ⟨(nearestBlock.x : ℚ) + 1/2, (nearestBlock.y : ℚ) + 1, (nearestBlock.z : ℚ) + 1/2⟩)

/-- handleUpTeleport: gate on `!isJumping || isSneaking || hasTeleportedUp`,
scan upward with the dimension-dependent bound, and on a found block teleport
to its center one block up and set the up cooldown flag. -/
def handleUpTeleport (c : Config) (isSneaking isJumping : Bool) (gb : BlockMap)
    (pos : IntPos) (allowedBlock : String) (playerState : PlayerState)
    (dimensionName : String) : PlayerState × Option RatPos :=
  if !isJumping || isSneaking || playerState.hasTeleportedUp then (playerState, none)
  else
    match scanUp c gb pos allowedBlock dimensionName with
    | none => (playerState, none)
    | some nearestBlock =>
      (⟨playerState.hasTeleportedDown, true⟩,
       some ⟨(nearestBlock.x : ℚ) + 1/2, (nearestBlock.y : ℚ) + 1, (nearestBlock.z : ℚ) + 1/2⟩)

/-- The per-iteration environment the tick loop reads from the host:
the player's (continuous) location, the dimension's block lookup, and the
dimension name. -/
structure IterEnv where
  loc : RatPos
  gb : BlockMap
  dimensionName : String

/-- `Math.floor` applied to each coordinate of the player location. -/
def floorPos (loc : RatPos) : IntPos :=
  ⟨⌊loc.x⌋, ⌊loc.y⌋, ⌊loc.z⌋⟩

/-- One iteration of the innermost tick loop (one player, one allowed block
type): floor the location, get-or-create the state record, apply the reset
rule, skip unless the block one below is the allowed type, otherwise run the
down handler then the up handler.  Returns (state after the iteration,
down-teleport destination if fired, up-teleport destination if fired).
The state component is total because getPlayerState always materialises an
entry in the store. -/
def processBlockIteration (c : Config) (isSneaking isJumping : Bool) (env : IterEnv)
    (allowedBlock : String) (st? : Option PlayerState) :
    PlayerState × Option RatPos × Option RatPos :=
  let pos := floorPos env.loc
  let st0 := resetPlayerState (getPlayerState st?) isSneaking isJumping
  if env.gb pos.x (pos.y - 1) pos.z ≠ some allowedBlock then (st0, none, none)
  else
    let r1 := handleDownTeleport c isSneaking isJumping env.gb pos allowedBlock st0
    let r2 := handleUpTeleport c isSneaking isJumping env.gb pos allowedBlock r1.1
      env.dimensionName
    (r2.1, r1.2, r2.2)

/-- The allowed-block loop of one tick for one player: fold the per-block
iteration over the list of (allowed block type, environment) pairs,
threading the player's stored state and collecting the down- and up-teleport
destinations in order.  The environment is per-iteration because the loop
re-reads player.location on each iteration. -/
def processIters (c : Config) (isSneaking isJumping : Bool) :
    List (String × IterEnv) → Option PlayerState →
    Option PlayerState × List RatPos × List RatPos
  | [], st? => (st?, [], [])
  | (b, env) :: rest, st? =>
    let r := processBlockIteration c isSneaking isJumping env b st?
    let rec' := processIters c isSneaking isJumping rest (some r.1)
    (rec'.1, r.2.1.toList ++ rec'.2.1, r.2.2.toList ++ rec'.2.2)

/-- One tick's worth of host inputs for one player: the sneak/jump flags
(fixed for the synchronous tick) and the per-allowed-block environments. -/
structure TickInput where
  isSneaking : Bool
  isJumping : Bool
  iters : List (String × IterEnv)

/-- Run a sequence of ticks for one player, threading the stored state and
collecting all down- and up-teleport destinations. -/
def runTicks (c : Config) : List TickInput → Option PlayerState →
    Option PlayerState × List RatPos × List RatPos
  | [], st? => (st?, [], [])
  | t :: ts, st? =>
    let r := processIters c t.isSneaking t.isJumping t.iters st?
    let r' := runTicks c ts r.1
    (r'.1, r.2.1 ++ r'.2.1, r.2.2 ++ r'.2.2)

/-- The down cooldown flag an observer reads back from the store. -/
def downFlag (st? : Option PlayerState) : Bool :=
  (getPlayerState st?).hasTeleportedDown

/-- The up cooldown flag an observer reads back from the store. -/
def upFlag (st? : Option PlayerState) : Bool :=
  (getPlayerState st?).hasTeleportedUp

/-- Modelled from the spec: the simplified downward scanner of §9's open
question, which returns immediately on the first match instead of tracking a
running minimum.  Used only to compare against the implemented scanner. -/
def scanDownFirstFrom (c : Config) (gb : BlockMap) (pos : IntPos) (target : String) :
    Nat → Nat → Option IntPos
  | 0, _ => none
  | fuel + 1, k =>
    let checkY : Int := pos.y - (k : Int)
    if checkY ≤ c.miniLimit then none
    else
      match gb pos.x checkY pos.z with
      | none => scanDownFirstFrom c gb pos target fuel (k + 1)
      | some t =>
        if t = target then some ⟨pos.x, checkY, pos.z⟩
        else scanDownFirstFrom c gb pos target fuel (k + 1)

/-- Modelled from the spec: entry point of the simplified downward scanner. -/
def scanDownFirst (c : Config) (gb : BlockMap) (pos : IntPos) (target : String) :
    Option IntPos :=
  scanDownFirstFrom c gb pos target (c.maximum - 1) 2

/-- Modelled from the spec: the simplified upward scanner returning on the
first match. -/
def scanUpFirstFrom (c : Config) (gb : BlockMap) (pos : IntPos) (target : String)
    (dimensionName : String) : Nat → Nat → Option IntPos
  | 0, _ => none
  | fuel + 1, k =>
    let checkY : Int := pos.y + (k : Int)
    if upBreak c dimensionName checkY then none
    else
      match gb pos.x checkY pos.z with
      | none => scanUpFirstFrom c gb pos target dimensionName fuel (k + 1)
      | some t =>
        if t = target then some ⟨pos.x, checkY, pos.z⟩
        else scanUpFirstFrom c gb pos target dimensionName fuel (k + 1)

/-- Modelled from the spec: entry point of the simplified upward scanner. -/
def scanUpFirst (c : Config) (gb : BlockMap) (pos : IntPos) (target : String)
    (dimensionName : String) : Option IntPos :=
  scanUpFirstFrom c gb pos target dimensionName c.maximum 1

/-- The diamond block type id, first entry of allowedBlocks. -/
def diamondId : String := "minecraft:diamond_block"

/-- Scenario A world: diamond blocks at (0,9,0), (0,5,0) and (0,2,0),
nothing else. -/
def worldA : BlockMap := fun x y z =>
  if x = 0 ∧ z = 0 ∧ (y = 9 ∨ y = 5 ∨ y = 2) then some diamondId else none

/-- Scenario A environment: player at (0,10,0) in the overworld. -/
def envA : IterEnv := ⟨⟨0, 10, 0⟩, worldA, "minecraft:overworld"⟩

/-- Scenario B configuration: the lower bound raised to 6, everything else
as in main.js. -/
def configB : Config := ⟨100, 6, 340, 255, defaultConfig.dimensions⟩

/-- Scenario C/D world: diamond blocks at (0,329,0) (the support block) and
(0,338,0). -/
def worldC : BlockMap := fun x y z =>
  if x = 0 ∧ z = 0 ∧ (y = 329 ∨ y = 338) then some diamondId else none

/-- A world with no blocks at all. -/
def worldEmpty : BlockMap := fun _ _ _ => none

/-- A world identical to worldA except that every empty cell holds air
instead of being absent. -/
def worldAAir : BlockMap := fun x y z =>
  if x = 0 ∧ z = 0 ∧ (y = 9 ∨ y = 5 ∨ y = 2) then some diamondId
  else some "minecraft:air"

/-- Environment over the empty world, player at the origin. -/
def envE : IterEnv := ⟨⟨0, 0, 0⟩, worldEmpty, "minecraft:overworld"⟩

/-- A one-tick trace holding sneak with a single allowed block type. -/
def ticksHoldSneak : List TickInput := [⟨true, false, [(diamondId, envA)]⟩]

/-- A one-tick trace holding jump with a single allowed block type. -/
def ticksHoldJump : List TickInput := [⟨false, true, [(diamondId, envA)]⟩]

/-- Once the running minimum is set and every remaining offset is strictly
farther, the tracked nearest block never changes. -/
theorem scanDownFrom_stuck (c : Config) (gb : BlockMap) (pos : IntPos) (target : String) :
    ∀ fuel k m b, m < k →
      scanDownFrom c gb pos target fuel k (some m) (some b) = some b := by
  intro fuel
  induction fuel with
  | zero => intro k m b _; rfl
  | succ fuel ih =>
    intro k m b hmk
    simp only [scanDownFrom]
    by_cases hbr : pos.y - (k : Int) ≤ c.miniLimit
    · simp [hbr]
    · simp only [if_neg hbr]
      cases hgb : gb pos.x (pos.y - (k : Int)) pos.z with
      | none => exact ih (k + 1) m b (by omega)
      | some t =>
        by_cases ht : t = target
        · have hlt : distLtInf k (some m) = false := by
            simp only [distLtInf, decide_eq_false_iff_not]
            omega
          simp only [if_pos ht, hlt, Bool.false_eq_true, if_false]
          exact ih (k + 1) m b (by omega)
        · simp only [if_neg ht]
          exact ih (k + 1) m b (by omega)

/-- If offset `d` is reachable (inside the fuel budget and strictly above the
lower bound) and is the first matching offset from `k` on, the downward scan
returns the block at offset `d`. -/
theorem scanDownFrom_first (c : Config) (gb : BlockMap) (pos : IntPos) (target : String) :
    ∀ fuel k d : Nat, k ≤ d → d < k + fuel →
      c.miniLimit < pos.y - (d : Int) →
      gb pos.x (pos.y - (d : Int)) pos.z = some target →
      (∀ j : Nat, k ≤ j → j < d → gb pos.x (pos.y - (j : Int)) pos.z ≠ some target) →
      scanDownFrom c gb pos target fuel k none none =
        some ⟨pos.x, pos.y - (d : Int), pos.z⟩ := by
  intro fuel
  induction fuel with
  | zero => intro k d h1 h2; omega
  | succ fuel ih =>
    intro k d hkd hfuel hlb hmatch hnone
    simp only [scanDownFrom]
    rcases Nat.eq_or_lt_of_le hkd with heq | hlt
    · subst heq
      have hbr : ¬(pos.y - (k : Int) ≤ c.miniLimit) := by omega
      simp only [if_neg hbr, hmatch]
      have hdl : distLtInf k none = true := rfl
      simp only [if_pos rfl, hdl, if_true]
      exact scanDownFrom_stuck c gb pos target fuel (k + 1) k _ (by omega)
    · have hbr : ¬(pos.y - (k : Int) ≤ c.miniLimit) := by
        have hki : (k : Int) < (d : Int) := by exact_mod_cast hlt
        omega
      simp only [if_neg hbr]
      have hk : gb pos.x (pos.y - (k : Int)) pos.z ≠ some target :=
        hnone k le_rfl hlt
      cases hgb : gb pos.x (pos.y - (k : Int)) pos.z with
      | none =>
        exact ih (k + 1) d hlt (by omega) hlb hmatch
          (fun j hj1 hj2 => hnone j (by omega) hj2)
      | some t =>
        have ht : ¬(t = target) := by
          intro h; exact hk (by rw [hgb, h])
        simp only [if_neg ht]
        exact ih (k + 1) d hlt (by omega) hlb hmatch
          (fun j hj1 hj2 => hnone j (by omega) hj2)

/-- Every block position the downward scan tracks lies strictly above the
lower bound, so a returned block does too. -/
theorem scanDownFrom_above_lb (c : Config) (gb : BlockMap) (pos : IntPos) (target : String) :
    ∀ fuel k md nb, (∀ b, nb = some b → c.miniLimit < b.y) →
      ∀ b', scanDownFrom c gb pos target fuel k md nb = some b' →
        c.miniLimit < b'.y := by
  intro fuel
  induction fuel with
  | zero => intro k md nb hinv b' h; exact hinv b' h
  | succ fuel ih =>
    intro k md nb hinv b' h
    simp only [scanDownFrom] at h
    split at h
    · exact hinv b' h
    · rename_i hbr
      split at h
      · exact ih _ _ _ hinv b' h
      · split at h
        · split at h
          · refine ih _ _ _ ?_ b' h
            intro b hb
            cases hb
            show c.miniLimit < pos.y - (k : Int)
            simp only [not_le] at hbr
            omega
          · exact ih _ _ _ hinv b' h
        · exact ih _ _ _ hinv b' h

/-- One unfolding of the downward scan loop, with the absent-block case and
the type-mismatch case merged into the single condition
`gb … = some target`, exactly as `if (!block || block.typeId !== allowedBlock) continue` does. -/
theorem scanDownFrom_succ_eq (c : Config) (gb : BlockMap) (pos : IntPos) (target : String)
    (fuel k : Nat) (md : Option Nat) (nb : Option IntPos) :
    scanDownFrom c gb pos target (fuel + 1) k md nb =
      if pos.y - (k : Int) ≤ c.miniLimit then nb
      else if gb pos.x (pos.y - (k : Int)) pos.z = some target then
        if distLtInf k md then
          scanDownFrom c gb pos target fuel (k + 1) (some k)
            (some ⟨pos.x, pos.y - (k : Int), pos.z⟩)
        else scanDownFrom c gb pos target fuel (k + 1) md nb
      else scanDownFrom c gb pos target fuel (k + 1) md nb := by
  simp only [scanDownFrom]
  by_cases hbr : pos.y - (k : Int) ≤ c.miniLimit
  · simp [hbr]
  · simp only [if_neg hbr]
    cases hv : gb pos.x (pos.y - (k : Int)) pos.z with
    | none =>
      dsimp only
      rw [if_neg (by simp)]
    | some t =>
      by_cases ht : t = target
      · subst ht
        dsimp only
        rw [if_pos rfl, if_pos rfl]
      · dsimp only
        rw [if_neg ht, if_neg (by simpa using ht)]

/-- One unfolding of the upward scan loop, same merged condition. -/
theorem scanUpFrom_succ_eq (c : Config) (gb : BlockMap) (pos : IntPos) (target : String)
    (dim : String) (fuel k : Nat) (md : Option Nat) (nb : Option IntPos) :
    scanUpFrom c gb pos target dim (fuel + 1) k md nb =
      if upBreak c dim (pos.y + (k : Int)) then nb
      else if gb pos.x (pos.y + (k : Int)) pos.z = some target then
        if distLtInf k md then
          scanUpFrom c gb pos target dim fuel (k + 1) (some k)
            (some ⟨pos.x, pos.y + (k : Int), pos.z⟩)
        else scanUpFrom c gb pos target dim fuel (k + 1) md nb
      else scanUpFrom c gb pos target dim fuel (k + 1) md nb := by
  simp only [scanUpFrom]
  by_cases hbr : upBreak c dim (pos.y + (k : Int)) = true
  · simp [hbr]
  · simp only [Bool.not_eq_true] at hbr
    simp only [hbr, Bool.false_eq_true, if_false]
    cases hv : gb pos.x (pos.y + (k : Int)) pos.z with
    | none =>
      dsimp only
      rw [if_neg (by simp)]
    | some t =>
      by_cases ht : t = target
      · subst ht
        dsimp only
        rw [if_pos rfl, if_pos rfl]
      · dsimp only
        rw [if_neg ht, if_neg (by simpa using ht)]

/-- One unfolding of the simplified downward scanner. -/
theorem scanDownFirstFrom_succ_eq (c : Config) (gb : BlockMap) (pos : IntPos)
    (target : String) (fuel k : Nat) :
    scanDownFirstFrom c gb pos target (fuel + 1) k =
      if pos.y - (k : Int) ≤ c.miniLimit then none
      else if gb pos.x (pos.y - (k : Int)) pos.z = some target then
        some ⟨pos.x, pos.y - (k : Int), pos.z⟩
      else scanDownFirstFrom c gb pos target fuel (k + 1) := by
  simp only [scanDownFirstFrom]
  by_cases hbr : pos.y - (k : Int) ≤ c.miniLimit
  · simp [hbr]
  · simp only [if_neg hbr]
    cases hv : gb pos.x (pos.y - (k : Int)) pos.z with
    | none =>
      dsimp only
      rw [if_neg (by simp)]
    | some t =>
      by_cases ht : t = target
      · subst ht
        dsimp only
        rw [if_pos rfl, if_pos rfl]
      · dsimp only
        rw [if_neg ht, if_neg (by simpa using ht)]

/-- One unfolding of the simplified upward scanner. -/
theorem scanUpFirstFrom_succ_eq (c : Config) (gb : BlockMap) (pos : IntPos)
    (target : String) (dim : String) (fuel k : Nat) :
    scanUpFirstFrom c gb pos target dim (fuel + 1) k =
      if upBreak c dim (pos.y + (k : Int)) then none
      else if gb pos.x (pos.y + (k : Int)) pos.z = some target then
        some ⟨pos.x, pos.y + (k : Int), pos.z⟩
      else scanUpFirstFrom c gb pos target dim fuel (k + 1) := by
  simp only [scanUpFirstFrom]
  by_cases hbr : upBreak c dim (pos.y + (k : Int)) = true
  · simp [hbr]
  · simp only [Bool.not_eq_true] at hbr
    simp only [hbr, Bool.false_eq_true, if_false]
    cases hv : gb pos.x (pos.y + (k : Int)) pos.z with
    | none =>
      dsimp only
      rw [if_neg (by simp)]
    | some t =>
      by_cases ht : t = target
      · subst ht
        dsimp only
        rw [if_pos rfl, if_pos rfl]
      · dsimp only
        rw [if_neg ht, if_neg (by simpa using ht)]

/-- The upward break condition is monotone: if it does not hold at some
height, it does not hold at any lower height. -/
theorem upBreak_mono (c : Config) (dim : String) (y1 y2 : Int) (hle : y1 ≤ y2)
    (h : upBreak c dim y2 = false) : upBreak c dim y1 = false := by
  simp only [upBreak, Bool.or_eq_false_iff, Bool.and_eq_false_iff,
    decide_eq_false_iff_not, not_le] at h ⊢
  constructor
  · rcases h.1 with h1 | h1
    · exact Or.inl h1
    · exact Or.inr (by omega)
  · rcases h.2 with h2 | h2
    · exact Or.inl h2
    · exact Or.inr (by omega)

/-- Upward analogue of scanDownFrom_stuck. -/
theorem scanUpFrom_stuck (c : Config) (gb : BlockMap) (pos : IntPos) (target : String)
    (dim : String) :
    ∀ fuel k m b, m < k →
      scanUpFrom c gb pos target dim fuel k (some m) (some b) = some b := by
  intro fuel
  induction fuel with
  | zero => intro k m b _; rfl
  | succ fuel ih =>
    intro k m b hmk
    rw [scanUpFrom_succ_eq]
    by_cases hbr : upBreak c dim (pos.y + (k : Int)) = true
    · simp [hbr]
    · simp only [Bool.not_eq_true] at hbr
      simp only [hbr, Bool.false_eq_true, if_false]
      by_cases hm : gb pos.x (pos.y + (k : Int)) pos.z = some target
      · have hlt : distLtInf k (some m) = false := by
          simp only [distLtInf, decide_eq_false_iff_not]
          omega
        simp only [if_pos hm, hlt, Bool.false_eq_true, if_false]
        exact ih (k + 1) m b (by omega)
      · simp only [if_neg hm]
        exact ih (k + 1) m b (by omega)

/-- If offset `d` is reachable (inside the fuel budget, and the break
condition does not yet hold at its height) and is the first matching offset
from `k` on, the upward scan returns the block at offset `d`. -/
theorem scanUpFrom_first (c : Config) (gb : BlockMap) (pos : IntPos) (target : String)
    (dim : String) :
    ∀ fuel k d : Nat, k ≤ d → d < k + fuel →
      upBreak c dim (pos.y + (d : Int)) = false →
      gb pos.x (pos.y + (d : Int)) pos.z = some target →
      (∀ j : Nat, k ≤ j → j < d → gb pos.x (pos.y + (j : Int)) pos.z ≠ some target) →
      scanUpFrom c gb pos target dim fuel k none none =
        some ⟨pos.x, pos.y + (d : Int), pos.z⟩ := by
  intro fuel
  induction fuel with
  | zero => intro k d h1 h2; omega
  | succ fuel ih =>
    intro k d hkd hfuel hub hmatch hnone
    rw [scanUpFrom_succ_eq]
    have hbr : upBreak c dim (pos.y + (k : Int)) = false := by
      refine upBreak_mono c dim _ _ ?_ hub
      have : (k : Int) ≤ (d : Int) := by exact_mod_cast hkd
      omega
    simp only [hbr, Bool.false_eq_true, if_false]
    rcases Nat.eq_or_lt_of_le hkd with heq | hlt
    · subst heq
      simp only [if_pos hmatch]
      have hdl : distLtInf k none = true := rfl
      simp only [hdl, if_true]
      exact scanUpFrom_stuck c gb pos target dim fuel (k + 1) k _ (by omega)
    · have hk : gb pos.x (pos.y + (k : Int)) pos.z ≠ some target :=
        hnone k le_rfl hlt
      simp only [if_neg hk]
      exact ih (k + 1) d hlt (by omega) hub hmatch
        (fun j hj1 hj2 => hnone j (by omega) hj2)

/-- Every block position the upward scan tracks has a height at which the
break condition does not hold, so a returned block does too. -/
theorem scanUpFrom_no_break (c : Config) (gb : BlockMap) (pos : IntPos) (target : String)
    (dim : String) :
    ∀ fuel k md nb, (∀ b, nb = some b → upBreak c dim b.y = false) →
      ∀ b', scanUpFrom c gb pos target dim fuel k md nb = some b' →
        upBreak c dim b'.y = false := by
  intro fuel
  induction fuel with
  | zero => intro k md nb hinv b' h; exact hinv b' h
  | succ fuel ih =>
    intro k md nb hinv b' h
    rw [scanUpFrom_succ_eq] at h
    by_cases hbr : upBreak c dim (pos.y + (k : Int)) = true
    · rw [if_pos hbr] at h
      exact hinv b' h
    · simp only [Bool.not_eq_true] at hbr
      simp only [hbr, Bool.false_eq_true, if_false] at h
      by_cases hm : gb pos.x (pos.y + (k : Int)) pos.z = some target
      · rw [if_pos hm] at h
        by_cases hd : distLtInf k md = true
        · rw [if_pos hd] at h
          refine ih _ _ _ ?_ b' h
          intro b hb
          cases hb
          exact hbr
        · rw [if_neg hd] at h
          exact ih _ _ _ hinv b' h
      · rw [if_neg hm] at h
        exact ih _ _ _ hinv b' h

/-- Two worlds with the same target-match profile produce the same downward
scan: an absent block and a block of the wrong type behave identically. -/
theorem scanDownFrom_congr_match (c : Config) (gb1 gb2 : BlockMap) (pos : IntPos)
    (target : String)
    (hgb : ∀ x y z, gb1 x y z = some target ↔ gb2 x y z = some target) :
    ∀ fuel k md nb,
      scanDownFrom c gb1 pos target fuel k md nb =
        scanDownFrom c gb2 pos target fuel k md nb := by
  intro fuel
  induction fuel with
  | zero => intro k md nb; rfl
  | succ fuel ih =>
    intro k md nb
    rw [scanDownFrom_succ_eq, scanDownFrom_succ_eq]
    by_cases hbr : pos.y - (k : Int) ≤ c.miniLimit
    · simp [hbr]
    · simp only [if_neg hbr]
      by_cases hm : gb1 pos.x (pos.y - (k : Int)) pos.z = some target
      · rw [if_pos hm, if_pos ((hgb _ _ _).mp hm)]
        by_cases hd : distLtInf k md = true
        · rw [if_pos hd, if_pos hd]
          exact ih (k + 1) (some k) _
        · rw [if_neg hd, if_neg hd]
          exact ih (k + 1) md nb
      · rw [if_neg hm, if_neg (fun hh => hm ((hgb _ _ _).mpr hh))]
        exact ih (k + 1) md nb

/-- Upward analogue of scanDownFrom_congr_match. -/
theorem scanUpFrom_congr_match (c : Config) (gb1 gb2 : BlockMap) (pos : IntPos)
    (target : String) (dim : String)
    (hgb : ∀ x y z, gb1 x y z = some target ↔ gb2 x y z = some target) :
    ∀ fuel k md nb,
      scanUpFrom c gb1 pos target dim fuel k md nb =
        scanUpFrom c gb2 pos target dim fuel k md nb := by
  intro fuel
  induction fuel with
  | zero => intro k md nb; rfl
  | succ fuel ih =>
    intro k md nb
    rw [scanUpFrom_succ_eq, scanUpFrom_succ_eq]
    by_cases hbr : upBreak c dim (pos.y + (k : Int)) = true
    · simp [hbr]
    · simp only [Bool.not_eq_true] at hbr
      simp only [hbr, Bool.false_eq_true, if_false]
      by_cases hm : gb1 pos.x (pos.y + (k : Int)) pos.z = some target
      · rw [if_pos hm, if_pos ((hgb _ _ _).mp hm)]
        by_cases hd : distLtInf k md = true
        · rw [if_pos hd, if_pos hd]
          exact ih (k + 1) (some k) _
        · rw [if_neg hd, if_neg hd]
          exact ih (k + 1) md nb
      · rw [if_neg hm, if_neg (fun hh => hm ((hgb _ _ _).mpr hh))]
        exact ih (k + 1) md nb

/-- Two worlds that agree strictly above the lower bound produce the same
downward scan: the loop breaks at or below the bound before looking any
block up. -/
theorem scanDownFrom_congr_above (c : Config) (gb1 gb2 : BlockMap) (pos : IntPos)
    (target : String)
    (hgb : ∀ x y z, c.miniLimit < y → gb1 x y z = gb2 x y z) :
    ∀ fuel k md nb,
      scanDownFrom c gb1 pos target fuel k md nb =
        scanDownFrom c gb2 pos target fuel k md nb := by
  intro fuel
  induction fuel with
  | zero => intro k md nb; rfl
  | succ fuel ih =>
    intro k md nb
    rw [scanDownFrom_succ_eq, scanDownFrom_succ_eq]
    by_cases hbr : pos.y - (k : Int) ≤ c.miniLimit
    · simp [hbr]
    · simp only [if_neg hbr]
      rw [hgb pos.x (pos.y - (k : Int)) pos.z (by omega)]
      by_cases hm : gb2 pos.x (pos.y - (k : Int)) pos.z = some target
      · rw [if_pos hm, if_pos hm]
        by_cases hd : distLtInf k md = true
        · rw [if_pos hd, if_pos hd]
          exact ih (k + 1) (some k) _
        · rw [if_neg hd, if_neg hd]
          exact ih (k + 1) md nb
      · rw [if_neg hm, if_neg hm]
        exact ih (k + 1) md nb

/-- With no match recorded yet, the implemented running-minimum downward scan
agrees with the simplified return-on-first-match scanner. -/
theorem scanDownFrom_eq_first (c : Config) (gb : BlockMap) (pos : IntPos)
    (target : String) :
    ∀ fuel k,
      scanDownFrom c gb pos target fuel k none none =
        scanDownFirstFrom c gb pos target fuel k := by
  intro fuel
  induction fuel with
  | zero => intro k; rfl
  | succ fuel ih =>
    intro k
    rw [scanDownFrom_succ_eq, scanDownFirstFrom_succ_eq]
    by_cases hbr : pos.y - (k : Int) ≤ c.miniLimit
    · simp [hbr]
    · simp only [if_neg hbr]
      by_cases hm : gb pos.x (pos.y - (k : Int)) pos.z = some target
      · rw [if_pos hm, if_pos hm]
        have hdl : distLtInf k none = true := rfl
        simp only [hdl, if_true]
        exact scanDownFrom_stuck c gb pos target fuel (k + 1) k _ (by omega)
      · rw [if_neg hm, if_neg hm]
        exact ih (k + 1)

/-- Upward analogue of scanDownFrom_eq_first. -/
theorem scanUpFrom_eq_first (c : Config) (gb : BlockMap) (pos : IntPos)
    (target : String) (dim : String) :
    ∀ fuel k,
      scanUpFrom c gb pos target dim fuel k none none =
        scanUpFirstFrom c gb pos target dim fuel k := by
  intro fuel
  induction fuel with
  | zero => intro k; rfl
  | succ fuel ih =>
    intro k
    rw [scanUpFrom_succ_eq, scanUpFirstFrom_succ_eq]
    by_cases hbr : upBreak c dim (pos.y + (k : Int)) = true
    · simp [hbr]
    · simp only [Bool.not_eq_true] at hbr
      simp only [hbr, Bool.false_eq_true, if_false]
      by_cases hm : gb pos.x (pos.y + (k : Int)) pos.z = some target
      · rw [if_pos hm, if_pos hm]
        have hdl : distLtInf k none = true := rfl
        simp only [hdl, if_true]
        exact scanUpFrom_stuck c gb pos target dim fuel (k + 1) k _ (by omega)
      · rw [if_neg hm, if_neg hm]
        exact ih (k + 1)

/-- A failed down gate (not sneaking, or jumping, or already teleported down)
leaves the state unchanged and fires nothing. -/
theorem handleDownTeleport_gate (c : Config) (s j : Bool) (gb : BlockMap) (pos : IntPos)
    (b : String) (st : PlayerState)
    (h : s = false ∨ j = true ∨ st.hasTeleportedDown = true) :
    handleDownTeleport c s j gb pos b st = (st, none) := by
  have hg : (!s || j || st.hasTeleportedDown) = true := by
    rcases h with h | h | h <;> simp [h]
  unfold handleDownTeleport
  simp [hg]

/-- A failed up gate (not jumping, or sneaking, or already teleported up)
leaves the state unchanged and fires nothing. -/
theorem handleUpTeleport_gate (c : Config) (s j : Bool) (gb : BlockMap) (pos : IntPos)
    (b : String) (st : PlayerState) (dim : String)
    (h : j = false ∨ s = true ∨ st.hasTeleportedUp = true) :
    handleUpTeleport c s j gb pos b st dim = (st, none) := by
  have hg : (!j || s || st.hasTeleportedUp) = true := by
    rcases h with h | h | h <;> simp [h]
  unfold handleUpTeleport
  simp [hg]

/-- The down handler either does nothing, or (only with sneak held, jump
released and the down flag clear) teleports somewhere and sets the down
flag, leaving the up flag alone. -/
theorem handleDownTeleport_cases (c : Config) (s j : Bool) (gb : BlockMap) (pos : IntPos)
    (b : String) (st : PlayerState) :
    handleDownTeleport c s j gb pos b st = (st, none) ∨
    (s = true ∧ j = false ∧ st.hasTeleportedDown = false ∧
      ∃ p, handleDownTeleport c s j gb pos b st = (⟨true, st.hasTeleportedUp⟩, some p)) := by
  cases hs : s with
  | false => exact Or.inl (handleDownTeleport_gate c false j gb pos b st (Or.inl rfl))
  | true =>
    cases hj : j with
    | true =>
      exact Or.inl (handleDownTeleport_gate c true true gb pos b st (Or.inr (Or.inl rfl)))
    | false =>
      cases hd : st.hasTeleportedDown with
      | true =>
        exact Or.inl (handleDownTeleport_gate c true false gb pos b st (Or.inr (Or.inr hd)))
      | false =>
        cases hscan : scanDown c gb pos b with
        | none =>
          left
          unfold handleDownTeleport
          simp [hd, hscan]
        | some nb =>
          right
          refine ⟨rfl, rfl, rfl,
            ⟨(nb.x : ℚ) + 1/2, (nb.y : ℚ) + 1, (nb.z : ℚ) + 1/2⟩, ?_⟩
          unfold handleDownTeleport
          simp [hd, hscan]

/-- The up handler either does nothing, or (only with jump held, sneak
released and the up flag clear) teleports somewhere and sets the up flag,
leaving the down flag alone. -/
theorem handleUpTeleport_cases (c : Config) (s j : Bool) (gb : BlockMap) (pos : IntPos)
    (b : String) (st : PlayerState) (dim : String) :
    handleUpTeleport c s j gb pos b st dim = (st, none) ∨
    (j = true ∧ s = false ∧ st.hasTeleportedUp = false ∧
      ∃ p, handleUpTeleport c s j gb pos b st dim =
        (⟨st.hasTeleportedDown, true⟩, some p)) := by
  cases hj : j with
  | false => exact Or.inl (handleUpTeleport_gate c s false gb pos b st dim (Or.inl rfl))
  | true =>
    cases hs : s with
    | true =>
      exact Or.inl (handleUpTeleport_gate c true true gb pos b st dim (Or.inr (Or.inl rfl)))
    | false =>
      cases hu : st.hasTeleportedUp with
      | true =>
        exact Or.inl (handleUpTeleport_gate c false true gb pos b st dim (Or.inr (Or.inr hu)))
      | false =>
        cases hscan : scanUp c gb pos b dim with
        | none =>
          left
          unfold handleUpTeleport
          simp [hu, hscan]
        | some nb =>
          right
          refine ⟨rfl, rfl, rfl,
            ⟨(nb.x : ℚ) + 1/2, (nb.y : ℚ) + 1, (nb.z : ℚ) + 1/2⟩, ?_⟩
          unfold handleUpTeleport
          simp [hu, hscan]

/-- The per-block iteration written without lets. -/
theorem processBlockIteration_eq (c : Config) (s j : Bool) (env : IterEnv)
    (b : String) (st? : Option PlayerState) :
    processBlockIteration c s j env b st? =
      if env.gb (floorPos env.loc).x ((floorPos env.loc).y - 1) (floorPos env.loc).z
          ≠ some b then
        (resetPlayerState (getPlayerState st?) s j, none, none)
      else
        ((handleUpTeleport c s j env.gb (floorPos env.loc) b
            (handleDownTeleport c s j env.gb (floorPos env.loc) b
              (resetPlayerState (getPlayerState st?) s j)).1 env.dimensionName).1,
         (handleDownTeleport c s j env.gb (floorPos env.loc) b
            (resetPlayerState (getPlayerState st?) s j)).2,
         (handleUpTeleport c s j env.gb (floorPos env.loc) b
            (handleDownTeleport c s j env.gb (floorPos env.loc) b
              (resetPlayerState (getPlayerState st?) s j)).1 env.dimensionName).2) := rfl

/-- Trichotomy for one iteration: it either changes nothing beyond
get-or-create plus the reset rule, or fires exactly one down teleport
(sneak held, jump released, down flag clear after reset), or fires exactly
one up teleport (jump held, sneak released, up flag clear after reset). -/
theorem processBlockIteration_cases (c : Config) (s j : Bool) (env : IterEnv)
    (b : String) (st? : Option PlayerState) :
    processBlockIteration c s j env b st? =
        (resetPlayerState (getPlayerState st?) s j, none, none) ∨
    (s = true ∧ j = false ∧
      (resetPlayerState (getPlayerState st?) s j).hasTeleportedDown = false ∧
      ∃ p, processBlockIteration c s j env b st? =
        (⟨true, (resetPlayerState (getPlayerState st?) s j).hasTeleportedUp⟩,
         some p, none)) ∨
    (j = true ∧ s = false ∧
      (resetPlayerState (getPlayerState st?) s j).hasTeleportedUp = false ∧
      ∃ p, processBlockIteration c s j env b st? =
        (⟨(resetPlayerState (getPlayerState st?) s j).hasTeleportedDown, true⟩,
         none, some p)) := by
  rw [processBlockIteration_eq]
  by_cases hskip : env.gb (floorPos env.loc).x ((floorPos env.loc).y - 1)
      (floorPos env.loc).z ≠ some b
  · left
    rw [if_pos hskip]
  · rw [if_neg hskip]
    rcases handleDownTeleport_cases c s j env.gb (floorPos env.loc) b
        (resetPlayerState (getPlayerState st?) s j) with h1 | ⟨hs, hj, hd, p, h1⟩
    · rcases handleUpTeleport_cases c s j env.gb (floorPos env.loc) b
          (resetPlayerState (getPlayerState st?) s j) env.dimensionName with
        h2 | ⟨hj2, hs2, hu, q, h2⟩
      · left
        rw [h1, h2]
      · right; right
        refine ⟨hj2, hs2, hu, q, ?_⟩
        rw [h1, h2]
    · right; left
      subst hs; subst hj
      have h2 : handleUpTeleport c true false env.gb (floorPos env.loc) b
          (handleDownTeleport c true false env.gb (floorPos env.loc) b
            (resetPlayerState (getPlayerState st?) true false)).1 env.dimensionName =
          ((handleDownTeleport c true false env.gb (floorPos env.loc) b
            (resetPlayerState (getPlayerState st?) true false)).1, none) :=
        handleUpTeleport_gate _ _ _ _ _ _ _ _ (Or.inl rfl)
      refine ⟨rfl, rfl, hd, p, ?_⟩
      rw [h2, h1]

/-- The stored record of a known player is returned as-is. -/
theorem getPlayerState_some (st : PlayerState) : getPlayerState (some st) = st := rfl

/-- With sneak held, the reset rule keeps the down flag. -/
theorem resetPlayerState_down_sneak (st : PlayerState) (j : Bool) :
    (resetPlayerState st true j).hasTeleportedDown = st.hasTeleportedDown := by
  simp [resetPlayerState]

/-- With sneak released, the reset rule clears the down flag. -/
theorem resetPlayerState_down_clear (st : PlayerState) (j : Bool) :
    (resetPlayerState st false j).hasTeleportedDown = false := by
  simp [resetPlayerState]

/-- With jump held, the reset rule keeps the up flag. -/
theorem resetPlayerState_up_jump (st : PlayerState) (s : Bool) :
    (resetPlayerState st s true).hasTeleportedUp = st.hasTeleportedUp := by
  simp [resetPlayerState]

/-- With jump released, the reset rule clears the up flag. -/
theorem resetPlayerState_up_clear (st : PlayerState) (s : Bool) :
    (resetPlayerState st s false).hasTeleportedUp = false := by
  simp [resetPlayerState]

/-- With sneak held and the down flag set, an iteration only applies the
reset rule: the down flag survives and nothing fires. -/
theorem iter_down_held (c : Config) (j : Bool) (env : IterEnv) (b : String)
    (st : PlayerState) (h : st.hasTeleportedDown = true) :
    processBlockIteration c true j env b (some st) =
      (resetPlayerState st true j, none, none) := by
  rcases processBlockIteration_cases c true j env b (some st) with h1 | h2 | h3
  · simpa [getPlayerState_some] using h1
  · exfalso
    have hcon := h2.2.2.1
    rw [getPlayerState_some, resetPlayerState_down_sneak, h] at hcon
    exact Bool.noConfusion hcon
  · exact absurd h3.2.1 (by simp)

/-- With jump held and the up flag set, an iteration only applies the reset
rule: the up flag survives and nothing fires. -/
theorem iter_up_held (c : Config) (s : Bool) (env : IterEnv) (b : String)
    (st : PlayerState) (h : st.hasTeleportedUp = true) :
    processBlockIteration c s true env b (some st) =
      (resetPlayerState st s true, none, none) := by
  rcases processBlockIteration_cases c s true env b (some st) with h1 | h2 | h3
  · simpa [getPlayerState_some] using h1
  · exact absurd h2.2.1 (by simp)
  · exfalso
    have hcon := h3.2.2.1
    rw [getPlayerState_some, resetPlayerState_up_jump, h] at hcon
    exact Bool.noConfusion hcon

/-- Without sneak, an iteration never fires a down teleport and leaves the
down flag clear. -/
theorem iter_no_down_of_not_sneak (c : Config) (j : Bool) (env : IterEnv) (b : String)
    (st? : Option PlayerState) :
    (processBlockIteration c false j env b st?).2.1 = none ∧
    (processBlockIteration c false j env b st?).1.hasTeleportedDown = false := by
  rcases processBlockIteration_cases c false j env b st? with h1 | h2 | h3
  · rw [h1]
    exact ⟨rfl, resetPlayerState_down_clear _ _⟩
  · exact absurd h2.1 (by simp)
  · obtain ⟨_, _, _, p, h3⟩ := h3
    rw [h3]
    exact ⟨rfl, resetPlayerState_down_clear (getPlayerState st?) j⟩

/-- Without jump, an iteration never fires an up teleport and leaves the up
flag clear. -/
theorem iter_no_up_of_not_jump (c : Config) (s : Bool) (env : IterEnv) (b : String)
    (st? : Option PlayerState) :
    (processBlockIteration c s false env b st?).2.2 = none ∧
    (processBlockIteration c s false env b st?).1.hasTeleportedUp = false := by
  rcases processBlockIteration_cases c s false env b st? with h1 | h2 | h3
  · rw [h1]
    exact ⟨rfl, resetPlayerState_up_clear _ _⟩
  · obtain ⟨_, _, _, p, h2⟩ := h2
    rw [h2]
    exact ⟨rfl, resetPlayerState_up_clear (getPlayerState st?) s⟩
  · exact absurd h3.1 (by simp)

/-- With jump held, an iteration never fires a down teleport. -/
theorem iter_no_down_of_jump (c : Config) (s : Bool) (env : IterEnv) (b : String)
    (st? : Option PlayerState) :
    (processBlockIteration c s true env b st?).2.1 = none := by
  rcases processBlockIteration_cases c s true env b st? with h1 | h2 | h3
  · rw [h1]
  · exact absurd h2.2.1 (by simp)
  · obtain ⟨_, _, _, p, h3⟩ := h3
    rw [h3]

/-- With sneak held, an iteration never fires an up teleport. -/
theorem iter_no_up_of_sneak (c : Config) (j : Bool) (env : IterEnv) (b : String)
    (st? : Option PlayerState) :
    (processBlockIteration c true j env b st?).2.2 = none := by
  rcases processBlockIteration_cases c true j env b st? with h1 | h2 | h3
  · rw [h1]
  · obtain ⟨_, _, _, p, h2⟩ := h2
    rw [h2]
  · exact absurd h3.2.1 (by simp)

/-- A fired down teleport leaves the down flag set. -/
theorem iter_down_fire_state (c : Config) (s j : Bool) (env : IterEnv) (b : String)
    (st? : Option PlayerState) (p : RatPos)
    (h : (processBlockIteration c s j env b st?).2.1 = some p) :
    (processBlockIteration c s j env b st?).1.hasTeleportedDown = true := by
  rcases processBlockIteration_cases c s j env b st? with h1 | h2 | h3
  · rw [h1] at h
    exact Option.noConfusion h
  · obtain ⟨_, _, _, q, h2⟩ := h2
    rw [h2]
  · obtain ⟨_, _, _, q, h3⟩ := h3
    rw [h3] at h
    exact Option.noConfusion h

/-- A fired up teleport leaves the up flag set. -/
theorem iter_up_fire_state (c : Config) (s j : Bool) (env : IterEnv) (b : String)
    (st? : Option PlayerState) (p : RatPos)
    (h : (processBlockIteration c s j env b st?).2.2 = some p) :
    (processBlockIteration c s j env b st?).1.hasTeleportedUp = true := by
  rcases processBlockIteration_cases c s j env b st? with h1 | h2 | h3
  · rw [h1] at h
    exact Option.noConfusion h
  · obtain ⟨_, _, _, q, h2⟩ := h2
    rw [h2] at h
    exact Option.noConfusion h
  · obtain ⟨_, _, _, q, h3⟩ := h3
    rw [h3]

/-- A player whose record exists keeps an existing record through the
allowed-block loop. -/
theorem processIters_some (c : Config) (s j : Bool) :
    ∀ iters (st : PlayerState), ∃ st',
      (processIters c s j iters (some st)).1 = some st' := by
  intro iters
  induction iters with
  | nil => intro st; exact ⟨st, rfl⟩
  | cons head rest ih =>
    intro st
    obtain ⟨b, env⟩ := head
    simp only [processIters]
    exact ih (processBlockIteration c s j env b (some st)).1

/-- With sneak held and the down flag already set, a whole allowed-block
loop pass fires no down teleport and keeps the flag set. -/
theorem processIters_down_held (c : Config) (j : Bool) :
    ∀ iters (st : PlayerState), st.hasTeleportedDown = true →
      (processIters c true j iters (some st)).2.1 = [] ∧
      downFlag (processIters c true j iters (some st)).1 = true := by
  intro iters
  induction iters with
  | nil => intro st h; exact ⟨rfl, h⟩
  | cons head rest ih =>
    intro st h
    obtain ⟨b, env⟩ := head
    have h1 := iter_down_held c j env b st h
    have hd : (resetPlayerState st true j).hasTeleportedDown = true := by
      rw [resetPlayerState_down_sneak]; exact h
    obtain ⟨ih1, ih2⟩ := ih (resetPlayerState st true j) hd
    simp only [processIters, h1, Option.toList_none, List.nil_append]
    exact ⟨ih1, ih2⟩

/-- With jump held and the up flag already set, a whole allowed-block loop
pass fires no up teleport and keeps the flag set. -/
theorem processIters_up_held (c : Config) (s : Bool) :
    ∀ iters (st : PlayerState), st.hasTeleportedUp = true →
      (processIters c s true iters (some st)).2.2 = [] ∧
      upFlag (processIters c s true iters (some st)).1 = true := by
  intro iters
  induction iters with
  | nil => intro st h; exact ⟨rfl, h⟩
  | cons head rest ih =>
    intro st h
    obtain ⟨b, env⟩ := head
    have h1 := iter_up_held c s env b st h
    have hu : (resetPlayerState st s true).hasTeleportedUp = true := by
      rw [resetPlayerState_up_jump]; exact h
    obtain ⟨ih1, ih2⟩ := ih (resetPlayerState st s true) hu
    simp only [processIters, h1, Option.toList_none, List.nil_append]
    exact ⟨ih1, ih2⟩

/-- With sneak held, a whole pass fires no up teleport. -/
theorem processIters_ups_nil_of_sneak (c : Config) (j : Bool) :
    ∀ iters st?, (processIters c true j iters st?).2.2 = [] := by
  intro iters
  induction iters with
  | nil => intro st?; rfl
  | cons head rest ih =>
    intro st?
    obtain ⟨b, env⟩ := head
    simp only [processIters, iter_no_up_of_sneak c j env b st?, Option.toList_none,
      List.nil_append]
    exact ih _

/-- With jump held, a whole pass fires no down teleport. -/
theorem processIters_downs_nil_of_jump (c : Config) (s : Bool) :
    ∀ iters st?, (processIters c s true iters st?).2.1 = [] := by
  intro iters
  induction iters with
  | nil => intro st?; rfl
  | cons head rest ih =>
    intro st?
    obtain ⟨b, env⟩ := head
    simp only [processIters, iter_no_down_of_jump c s env b st?, Option.toList_none,
      List.nil_append]
    exact ih _

/-- Without sneak, a whole pass fires no down teleport. -/
theorem processIters_downs_nil_of_not_sneak (c : Config) (j : Bool) :
    ∀ iters st?, (processIters c false j iters st?).2.1 = [] := by
  intro iters
  induction iters with
  | nil => intro st?; rfl
  | cons head rest ih =>
    intro st?
    obtain ⟨b, env⟩ := head
    simp only [processIters, (iter_no_down_of_not_sneak c j env b st?).1,
      Option.toList_none, List.nil_append]
    exact ih _

/-- Without jump, a whole pass fires no up teleport. -/
theorem processIters_ups_nil_of_not_jump (c : Config) (s : Bool) :
    ∀ iters st?, (processIters c s false iters st?).2.2 = [] := by
  intro iters
  induction iters with
  | nil => intro st?; rfl
  | cons head rest ih =>
    intro st?
    obtain ⟨b, env⟩ := head
    simp only [processIters, (iter_no_up_of_not_jump c s env b st?).1,
      Option.toList_none, List.nil_append]
    exact ih _

/-- A pass over at least one allowed block type without sneak leaves the
down flag clear. -/
theorem processIters_downFlag_clear (c : Config) (j : Bool) :
    ∀ iters st?, iters ≠ [] →
      downFlag (processIters c false j iters st?).1 = false := by
  intro iters
  induction iters with
  | nil => intro st? h; exact absurd rfl h
  | cons head rest ih =>
    intro st? _
    obtain ⟨b, env⟩ := head
    by_cases hrest : rest = []
    · subst hrest
      simp only [processIters]
      exact (iter_no_down_of_not_sneak c j env b st?).2
    · simp only [processIters]
      exact ih _ hrest

/-- A pass over at least one allowed block type without jump leaves the up
flag clear. -/
theorem processIters_upFlag_clear (c : Config) (s : Bool) :
    ∀ iters st?, iters ≠ [] →
      upFlag (processIters c s false iters st?).1 = false := by
  intro iters
  induction iters with
  | nil => intro st? h; exact absurd rfl h
  | cons head rest ih =>
    intro st? _
    obtain ⟨b, env⟩ := head
    by_cases hrest : rest = []
    · subst hrest
      simp only [processIters]
      exact (iter_no_up_of_not_jump c s env b st?).2
    · simp only [processIters]
      exact ih _ hrest

/-- With sneak held and jump released, a pass fires at most one down
teleport: the flag set by the first firing blocks all later block types. -/
theorem processIters_downs_le_one (c : Config) :
    ∀ iters st?, (processIters c true false iters st?).2.1.length ≤ 1 := by
  intro iters
  induction iters with
  | nil => intro st?; simp [processIters]
  | cons head rest ih =>
    intro st?
    obtain ⟨b, env⟩ := head
    rcases hfire : (processBlockIteration c true false env b st?).2.1 with _ | p
    · simp only [processIters, hfire, Option.toList_none, List.nil_append]
      exact ih _
    · have hstate := iter_down_fire_state c true false env b st? p hfire
      have hrest := (processIters_down_held c false rest
        (processBlockIteration c true false env b st?).1 hstate).1
      simp only [processIters, hfire, Option.toList_some, List.cons_append,
        List.nil_append, hrest]
      simp

/-- With jump held and sneak released, a pass fires at most one up
teleport. -/
theorem processIters_ups_le_one (c : Config) :
    ∀ iters st?, (processIters c false true iters st?).2.2.length ≤ 1 := by
  intro iters
  induction iters with
  | nil => intro st?; simp [processIters]
  | cons head rest ih =>
    intro st?
    obtain ⟨b, env⟩ := head
    rcases hfire : (processBlockIteration c false true env b st?).2.2 with _ | p
    · simp only [processIters, hfire, Option.toList_none, List.nil_append]
      exact ih _
    · have hstate := iter_up_fire_state c false true env b st? p hfire
      have hrest := (processIters_up_held c false rest
        (processBlockIteration c false true env b st?).1 hstate).1
      simp only [processIters, hfire, Option.toList_some, List.cons_append,
        List.nil_append, hrest]
      simp

/-- Across whole ticks: while sneak stays held and the down flag starts
set, no down teleport ever fires and the flag stays set. -/
theorem runTicks_down_held (c : Config) :
    ∀ ticks (st : PlayerState), st.hasTeleportedDown = true →
      (∀ t ∈ ticks, t.isSneaking = true) →
      (runTicks c ticks (some st)).2.1 = [] ∧
      downFlag (runTicks c ticks (some st)).1 = true := by
  intro ticks
  induction ticks with
  | nil => intro st h _; exact ⟨rfl, h⟩
  | cons t ts ih =>
    intro st h hall
    have hts : t.isSneaking = true := hall t (List.mem_cons_self t ts)
    obtain ⟨hA, hB⟩ := processIters_down_held c t.isJumping t.iters st h
    obtain ⟨st2, hst2⟩ := processIters_some c true t.isJumping t.iters st
    have hd2 : st2.hasTeleportedDown = true := by
      rw [hst2] at hB
      exact hB
    obtain ⟨ihA, ihB⟩ := ih st2 hd2 (fun u hu => hall u (List.mem_cons_of_mem _ hu))
    simp only [runTicks, hts]
    constructor
    · rw [hA, hst2, ihA]
      rfl
    · rw [hst2]
      exact ihB

/-- Across whole ticks: while jump stays held and the up flag starts set,
no up teleport ever fires and the flag stays set. -/
theorem runTicks_up_held (c : Config) :
    ∀ ticks (st : PlayerState), st.hasTeleportedUp = true →
      (∀ t ∈ ticks, t.isJumping = true) →
      (runTicks c ticks (some st)).2.2 = [] ∧
      upFlag (runTicks c ticks (some st)).1 = true := by
  intro ticks
  induction ticks with
  | nil => intro st h _; exact ⟨rfl, h⟩
  | cons t ts ih =>
    intro st h hall
    have htj : t.isJumping = true := hall t (List.mem_cons_self t ts)
    obtain ⟨hA, hB⟩ := processIters_up_held c t.isSneaking t.iters st h
    obtain ⟨st2, hst2⟩ := processIters_some c t.isSneaking true t.iters st
    have hu2 : st2.hasTeleportedUp = true := by
      rw [hst2] at hB
      exact hB
    obtain ⟨ihA, ihB⟩ := ih st2 hu2 (fun u hu => hall u (List.mem_cons_of_mem _ hu))
    simp only [runTicks, htj]
    constructor
    · rw [hA, hst2, ihA]
      rfl
    · rw [hst2]
      exact ihB

/-- C1: For every origin position, direction (down or up) and target block
type, when the matching blocks along the scanned vertical axis sit at
distances d1 < d2 (both within the step budget and the height bounds, no
match nearer than d1), the scanner returns the block at distance d1;
concretely, a sneaking player at (0,10,0) standing on diamond_block at
(0,9,0), with matching diamond_block at (0,5,0) and (0,2,0), is teleported
to (0.5,6,0.5). -/
theorem c1_nearest_match :
    (∀ (c : Config) (gb : BlockMap) (pos : IntPos) (target : String) (d1 d2 : Nat),
      2 ≤ d1 → d1 < d2 → d2 ≤ c.maximum →
      c.miniLimit < pos.y - (d2 : Int) →
      gb pos.x (pos.y - (d1 : Int)) pos.z = some target →
      gb pos.x (pos.y - (d2 : Int)) pos.z = some target →
      (∀ k : Nat, k < d1 → 2 ≤ k → gb pos.x (pos.y - (k : Int)) pos.z ≠ some target) →
      scanDown c gb pos target = some ⟨pos.x, pos.y - (d1 : Int), pos.z⟩) ∧
    (∀ (c : Config) (gb : BlockMap) (pos : IntPos) (target dim : String) (d1 d2 : Nat),
      1 ≤ d1 → d1 < d2 → d2 ≤ c.maximum →
      upBreak c dim (pos.y + (d2 : Int)) = false →
      gb pos.x (pos.y + (d1 : Int)) pos.z = some target →
      gb pos.x (pos.y + (d2 : Int)) pos.z = some target →
      (∀ k : Nat, k < d1 → 1 ≤ k → gb pos.x (pos.y + (k : Int)) pos.z ≠ some target) →
      scanUp c gb pos target dim = some ⟨pos.x, pos.y + (d1 : Int), pos.z⟩) ∧
    processBlockIteration defaultConfig true false envA diamondId none =
      (⟨true, false⟩, some ⟨1/2, 6, 1/2⟩, none) := by
  refine ⟨?_, ?_, ?_⟩
  · intro c gb pos target d1 d2 h2d1 hd12 hd2max hlb hm1 hm2 hno
    have hcast : (d1 : Int) < (d2 : Int) := by exact_mod_cast hd12
    exact scanDownFrom_first c gb pos target (c.maximum - 1) 2 d1 h2d1 (by omega)
      (by omega) hm1 (fun j hj1 hj2 => hno j hj2 hj1)
  · intro c gb pos target dim d1 d2 h1d1 hd12 hd2max hub hm1 hm2 hno
    have hcast : (d1 : Int) ≤ (d2 : Int) := by exact_mod_cast Nat.le_of_lt hd12
    have hub1 : upBreak c dim (pos.y + (d1 : Int)) = false :=
      upBreak_mono c dim _ _ (by omega) hub
    exact scanUpFrom_first c gb pos target dim c.maximum 1 d1 h1d1 (by omega)
      hub1 hm1 (fun j hj1 hj2 => hno j hj2 hj1)
  · have hfloor : floorPos envA.loc = (⟨0, 10, 0⟩ : IntPos) := by decide
    have hscan : scanDown defaultConfig envA.gb (⟨0, 10, 0⟩ : IntPos) diamondId =
        some ⟨0, 5, 0⟩ := by decide
    have hbelow : ¬(envA.gb (⟨0, 10, 0⟩ : IntPos).x ((⟨0, 10, 0⟩ : IntPos).y - 1)
        (⟨0, 10, 0⟩ : IntPos).z ≠ some diamondId) := by decide
    rw [processBlockIteration_eq, hfloor, if_neg hbelow]
    have hst0 : resetPlayerState (getPlayerState none) true false =
        (⟨false, false⟩ : PlayerState) := rfl
    rw [hst0]
    have hdown : handleDownTeleport defaultConfig true false envA.gb
        (⟨0, 10, 0⟩ : IntPos) diamondId ⟨false, false⟩ =
        (⟨true, false⟩, some ⟨1/2, 6, 1/2⟩) := by
      unfold handleDownTeleport
      rw [hscan]
      norm_num
    rw [hdown]
    have hup : handleUpTeleport defaultConfig true false envA.gb (⟨0, 10, 0⟩ : IntPos)
        diamondId ⟨true, false⟩ envA.dimensionName = (⟨true, false⟩, none) :=
      handleUpTeleport_gate _ _ _ _ _ _ _ _ (Or.inl rfl)
    rw [hup]

/-- C1 witness: the downward scanner on the scenario A world, matches at
distances 5 and 8 below (0,10,0), returns the block at distance 5. -/
theorem c1_nearest_match_witness :
    scanDown defaultConfig worldA ⟨0, 10, 0⟩ diamondId = some ⟨0, 5, 0⟩ :=
  c1_nearest_match.1 defaultConfig worldA ⟨0, 10, 0⟩ diamondId 5 8 (by decide) (by decide)
    (by decide) (by decide) (by decide) (by decide) (by decide)

/-- C2 counterexample: the claim is false as stated.  With the player not
standing on any block (lookup below returns nothing), the iteration still
mutates the stored state: get-or-create and the reset rule run before the
support-block check, so a stored record {true, true} becomes {false, false}
while both inputs are released. -/
theorem c2_skip_counterexample :
    envE.gb (floorPos envE.loc).x ((floorPos envE.loc).y - 1) (floorPos envE.loc).z =
      none ∧
    processBlockIteration defaultConfig false false envE diamondId (some ⟨true, true⟩) =
      (⟨false, false⟩, none, none) ∧
    ((⟨false, false⟩ : PlayerState) ≠ ⟨true, true⟩) := by
  refine ⟨rfl, by decide, by decide⟩

/-- C2 amended: if the block one unit below the player's floored position is
absent or not of the allowed type, no scan runs and no teleport fires for
that block type, and the iteration leaves exactly the state produced by
get-or-create followed by the reset rule (which run before the check, so an
entry may be created and flags may be cleared, but never set). -/
theorem c2_skip_amended (c : Config) (s j : Bool) (env : IterEnv) (b : String)
    (st? : Option PlayerState)
    (h : env.gb (floorPos env.loc).x ((floorPos env.loc).y - 1) (floorPos env.loc).z ≠
      some b) :
    processBlockIteration c s j env b st? =
      (resetPlayerState (getPlayerState st?) s j, none, none) := by
  rw [processBlockIteration_eq, if_pos h]

/-- C2 witness: over the empty world, an iteration with sneak held reduces to
the reset of the stored record, with no teleport fired. -/
theorem c2_skip_amended_witness :
    processBlockIteration defaultConfig true false envE diamondId (some ⟨true, true⟩) =
      (resetPlayerState (getPlayerState (some ⟨true, true⟩)) true false, none, none) :=
  c2_skip_amended defaultConfig true false envE diamondId (some ⟨true, true⟩) (by decide)

/-- C3: once a down-teleport has set hasTeleportedDown, no down-teleport
fires on any later tick while isSneaking stays true and the flag stays set;
the direction re-arms exactly through a pass on which isSneaking is false,
which clears the flag; symmetrically for up-teleports and isJumping. -/
theorem c3_cooldown_idempotence :
    (∀ (c : Config) (ticks : List TickInput) (st : PlayerState),
      st.hasTeleportedDown = true → (∀ t ∈ ticks, t.isSneaking = true) →
      (runTicks c ticks (some st)).2.1 = [] ∧
      downFlag (runTicks c ticks (some st)).1 = true) ∧
    (∀ (c : Config) (j : Bool) (iters : List (String × IterEnv))
      (st? : Option PlayerState), iters ≠ [] →
      downFlag (processIters c false j iters st?).1 = false) ∧
    (∀ (c : Config) (ticks : List TickInput) (st : PlayerState),
      st.hasTeleportedUp = true → (∀ t ∈ ticks, t.isJumping = true) →
      (runTicks c ticks (some st)).2.2 = [] ∧
      upFlag (runTicks c ticks (some st)).1 = true) ∧
    (∀ (c : Config) (s : Bool) (iters : List (String × IterEnv))
      (st? : Option PlayerState), iters ≠ [] →
      upFlag (processIters c s false iters st?).1 = false) :=
  ⟨fun c ticks st h hall => runTicks_down_held c ticks st h hall,
   fun c j iters st? h => processIters_downFlag_clear c j iters st? h,
   fun c ticks st h hall => runTicks_up_held c ticks st h hall,
   fun c s iters st? h => processIters_upFlag_clear c s iters st? h⟩

/-- C3 witness: a tick trace holding sneak, starting with the down flag set,
fires nothing and keeps the flag. -/
theorem c3_cooldown_idempotence_witness :
    (runTicks defaultConfig ticksHoldSneak (some ⟨true, false⟩)).2.1 = [] ∧
    downFlag (runTicks defaultConfig ticksHoldSneak (some ⟨true, false⟩)).1 = true :=
  c3_cooldown_idempotence.1 defaultConfig ticksHoldSneak ⟨true, false⟩ rfl (by decide)

/-- C4: on a tick where both isSneaking and isJumping are true, neither
direction fires for any allowed block type, whatever the world holds. -/
theorem c4_mutual_exclusivity :
    ∀ (c : Config) (iters : List (String × IterEnv)) (st? : Option PlayerState),
      (processIters c true true iters st?).2.1 = [] ∧
      (processIters c true true iters st?).2.2 = [] :=
  fun c iters st? =>
    ⟨processIters_downs_nil_of_jump c true iters st?,
     processIters_ups_nil_of_sneak c true iters st?⟩

/-- C5: a downward scan never returns a block at or below the lower bound;
the scan is insensitive to the world at or below the bound because it breaks
before looking those blocks up; concretely, with lower bound 6 and matching
blocks at y=5 and y=2 below a player at y=10, no teleport occurs. -/
theorem c5_lower_bound :
    (∀ (c : Config) (gb : BlockMap) (pos : IntPos) (target : String) (b : IntPos),
      scanDown c gb pos target = some b → c.miniLimit < b.y) ∧
    (∀ (c : Config) (gb1 gb2 : BlockMap) (pos : IntPos) (target : String),
      (∀ x y z, c.miniLimit < y → gb1 x y z = gb2 x y z) →
      scanDown c gb1 pos target = scanDown c gb2 pos target) ∧
    processBlockIteration configB true false envA diamondId (some ⟨false, false⟩) =
      (⟨false, false⟩, none, none) := by
  refine ⟨?_, ?_, by decide⟩
  · intro c gb pos target b h
    exact scanDownFrom_above_lb c gb pos target (c.maximum - 1) 2 none none
      (fun b hb => Option.noConfusion hb) b h
  · intro c gb1 gb2 pos target h
    exact scanDownFrom_congr_above c gb1 gb2 pos target h (c.maximum - 1) 2 none none

/-- C5 witness: the block the scenario A scan returns lies strictly above
the lower bound. -/
theorem c5_lower_bound_witness :
    defaultConfig.miniLimit < (⟨0, 5, 0⟩ : IntPos).y :=
  c5_lower_bound.1 defaultConfig worldA ⟨0, 10, 0⟩ diamondId ⟨0, 5, 0⟩ (by decide)

/-- C6: an upward scan never returns a block at or beyond the region's upper
bound, the overworld using maxLimitOW = 340 and the other two regions
maxLimitETC = 255; concretely, a jumping player at (0,330,0) with a matching
block at (0,338,0) is teleported in the overworld but not in the nether. -/
theorem c6_upper_bound :
    (∀ (c : Config) (gb : BlockMap) (pos : IntPos) (target : String) (b : IntPos),
      scanUp c gb pos target "minecraft:overworld" = some b → b.y < c.maxLimitOW) ∧
    (∀ (c : Config) (gb : BlockMap) (pos : IntPos) (target dim : String) (b : IntPos),
      (dim = "minecraft:nether" ∨ dim = "minecraft:the_end") →
      scanUp c gb pos target dim = some b → b.y < c.maxLimitETC) ∧
    (defaultConfig.maxLimitOW = 340 ∧ defaultConfig.maxLimitETC = 255) ∧
    handleUpTeleport defaultConfig false true worldC ⟨0, 330, 0⟩ diamondId ⟨false, false⟩
      "minecraft:overworld" = (⟨false, true⟩, some ⟨1/2, 339, 1/2⟩) ∧
    handleUpTeleport defaultConfig false true worldC ⟨0, 330, 0⟩ diamondId ⟨false, false⟩
      "minecraft:nether" = (⟨false, false⟩, none) := by
  refine ⟨?_, ?_, ⟨rfl, rfl⟩, ?_, by decide⟩
  · intro c gb pos target b h
    have hb := scanUpFrom_no_break c gb pos target "minecraft:overworld" c.maximum 1
      none none (fun b hb => Option.noConfusion hb) b h
    simp only [upBreak, Bool.or_eq_false_iff, Bool.and_eq_false_iff,
      decide_eq_false_iff_not, not_le] at hb
    rcases hb.1 with h1 | h1
    · exact absurd h1 (by decide)
    · exact h1
  · intro c gb pos target dim b hdim h
    have hb := scanUpFrom_no_break c gb pos target dim c.maximum 1
      none none (fun b hb => Option.noConfusion hb) b h
    simp only [upBreak, Bool.or_eq_false_iff, Bool.and_eq_false_iff,
      decide_eq_false_iff_not, not_le] at hb
    rcases hdim with hd | hd <;> subst hd <;> rcases hb.2 with h1 | h1
    · exact absurd h1 (by decide)
    · exact h1
    · exact absurd h1 (by decide)
    · exact h1
  · have hscan : scanUp defaultConfig worldC (⟨0, 330, 0⟩ : IntPos) diamondId
        "minecraft:overworld" = some ⟨0, 338, 0⟩ := by decide
    unfold handleUpTeleport
    rw [hscan]
    norm_num

/-- C6 witness: the block returned by the scenario C overworld scan lies
strictly below the overworld bound. -/
theorem c6_upper_bound_witness :
    (⟨0, 338, 0⟩ : IntPos).y < defaultConfig.maxLimitOW :=
  c6_upper_bound.1 defaultConfig worldC ⟨0, 330, 0⟩ diamondId ⟨0, 338, 0⟩ (by decide)

/-- C7: on a found block, the dispatch teleports to exactly
(blockX + 0.5, blockY + 1, blockZ + 0.5) and sets the direction's cooldown
flag, leaving the other flag unchanged. -/
theorem c7_dispatch :
    (∀ (c : Config) (gb : BlockMap) (pos : IntPos) (target : String) (st : PlayerState)
      (b : IntPos), st.hasTeleportedDown = false →
      scanDown c gb pos target = some b →
      handleDownTeleport c true false gb pos target st =
        (⟨true, st.hasTeleportedUp⟩,
         some ⟨(b.x : ℚ) + 1/2, (b.y : ℚ) + 1, (b.z : ℚ) + 1/2⟩)) ∧
    (∀ (c : Config) (gb : BlockMap) (pos : IntPos) (target dim : String)
      (st : PlayerState) (b : IntPos), st.hasTeleportedUp = false →
      scanUp c gb pos target dim = some b →
      handleUpTeleport c false true gb pos target st dim =
        (⟨st.hasTeleportedDown, true⟩,
         some ⟨(b.x : ℚ) + 1/2, (b.y : ℚ) + 1, (b.z : ℚ) + 1/2⟩)) := by
  constructor
  · intro c gb pos target st b hd hscan
    unfold handleDownTeleport
    rw [hscan]
    simp [hd]
  · intro c gb pos target dim st b hu hscan
    unfold handleUpTeleport
    rw [hscan]
    simp [hu]

/-- C7 witness: dispatching the scenario A found block teleports to its
center one block up and sets the down flag. -/
theorem c7_dispatch_witness :
    handleDownTeleport defaultConfig true false worldA ⟨0, 10, 0⟩ diamondId
      ⟨false, false⟩ =
      (⟨true, (⟨false, false⟩ : PlayerState).hasTeleportedUp⟩,
       some ⟨((⟨0, 5, 0⟩ : IntPos).x : ℚ) + 1/2, ((⟨0, 5, 0⟩ : IntPos).y : ℚ) + 1,
             ((⟨0, 5, 0⟩ : IntPos).z : ℚ) + 1/2⟩) :=
  c7_dispatch.1 defaultConfig worldA ⟨0, 10, 0⟩ diamondId ⟨false, false⟩ ⟨0, 5, 0⟩ rfl
    (by decide)

/-- C8: an absent block and a block of a different type are the same
non-match to the scanners (worlds with equal target-match profiles scan
identically, with no error path), and an exhausted scan leaves the player
state untouched with no teleport invoked. -/
theorem c8_nonmatch_uniform :
    (∀ (c : Config) (gb1 gb2 : BlockMap) (pos : IntPos) (target : String),
      (∀ x y z, gb1 x y z = some target ↔ gb2 x y z = some target) →
      scanDown c gb1 pos target = scanDown c gb2 pos target ∧
      ∀ dim, scanUp c gb1 pos target dim = scanUp c gb2 pos target dim) ∧
    (∀ (c : Config) (s j : Bool) (gb : BlockMap) (pos : IntPos) (target : String)
      (st : PlayerState), scanDown c gb pos target = none →
      handleDownTeleport c s j gb pos target st = (st, none)) ∧
    (∀ (c : Config) (s j : Bool) (gb : BlockMap) (pos : IntPos) (target dim : String)
      (st : PlayerState), scanUp c gb pos target dim = none →
      handleUpTeleport c s j gb pos target st dim = (st, none)) := by
  refine ⟨?_, ?_, ?_⟩
  · intro c gb1 gb2 pos target h
    exact ⟨scanDownFrom_congr_match c gb1 gb2 pos target h (c.maximum - 1) 2 none none,
      fun dim => scanUpFrom_congr_match c gb1 gb2 pos target dim h c.maximum 1 none none⟩
  · intro c s j gb pos target st hscan
    unfold handleDownTeleport
    rw [hscan]
    simp
  · intro c s j gb pos target dim st hscan
    unfold handleUpTeleport
    rw [hscan]
    simp

/-- C8 witness: the scenario A world and its variant with air instead of
absent blocks scan identically downward. -/
theorem c8_nonmatch_uniform_witness :
    scanDown defaultConfig worldA ⟨0, 10, 0⟩ diamondId =
      scanDown defaultConfig worldAAir ⟨0, 10, 0⟩ diamondId :=
  (c8_nonmatch_uniform.1 defaultConfig worldA worldAAir ⟨0, 10, 0⟩ diamondId (by
    intro x y z
    by_cases h : x = 0 ∧ z = 0 ∧ (y = 9 ∨ y = 5 ∨ y = 2)
    · simp only [worldA, worldAAir]
      rw [if_pos h, if_pos h]
    · simp only [worldA, worldAAir]
      rw [if_neg h, if_neg h]
      decide)).1

/-- C9: the implemented scanners, which track a running minimum over offsets
visited in strictly increasing distance order, agree with the simplified
scanners that return on the first match, for every input. -/
theorem c9_first_match_refinement :
    ∀ (c : Config) (gb : BlockMap) (pos : IntPos) (target : String),
      scanDown c gb pos target = scanDownFirst c gb pos target ∧
      ∀ dim, scanUp c gb pos target dim = scanUpFirst c gb pos target dim :=
  fun c gb pos target =>
    ⟨scanDownFrom_eq_first c gb pos target (c.maximum - 1) 2,
     fun dim => scanUpFrom_eq_first c gb pos target dim c.maximum 1⟩

/-- C10: within one tick pass over all allowed block types, a player is
teleported at most once in total across both directions, for any inputs,
stored state and worlds. -/
theorem c10_at_most_one_teleport :
    ∀ (c : Config) (s j : Bool) (iters : List (String × IterEnv))
      (st? : Option PlayerState),
      (processIters c s j iters st?).2.1.length +
        (processIters c s j iters st?).2.2.length ≤ 1 := by
  intro c s j iters st?
  cases s with
  | true =>
    cases j with
    | true =>
      rw [processIters_downs_nil_of_jump c true iters st?,
        processIters_ups_nil_of_sneak c true iters st?]
      simp
    | false =>
      have h1 := processIters_downs_le_one c iters st?
      rw [processIters_ups_nil_of_not_jump c true iters st?]
      simpa using h1
  | false =>
    cases j with
    | true =>
      have h1 := processIters_ups_le_one c iters st?
      rw [processIters_downs_nil_of_not_sneak c true iters st?]
      simpa using h1
    | false =>
      rw [processIters_downs_nil_of_not_sneak c false iters st?,
        processIters_ups_nil_of_not_jump c false iters st?]
      simp

end Elevartor
